import Mathlib

/-!
Verification of the sheet-metal development-view generator (src/cad.py).

The script is a single-pass build: it derives corner points from a parameter
block, draws the outline (straight left edge, two-segment top edge, a spline
through the right-edge profile, two-segment bottom edge), places one hole per
station on each edge (the right edge through the piecewise-linear interpolator
right_x_at), imitates a dashed bending line with 80 alternating sub-segments,
and finally emits ticks, labels and notes.

The embedding below models coordinates as exact rationals, the ezdxf
modelspace as a list of emitted entities, and the one possible runtime failure
(indexing an empty profile list) as an Except error.
-/

namespace Cad

/-- A 2D point, the exact-rational counterpart of ezdxf.math.Vec2. -/
abbrev Pt := ℚ × ℚ

/-- Vec2.lerp: v + (w - v) * factor, componentwise. -/
def lerp (v w : Pt) (t : ℚ) : Pt :=
  (v.1 + (w.1 - v.1) * t, v.2 + (w.2 - v.2) * t)

/-- Content of a TEXT entity.  The script writes four kinds of strings:
the fixed "Bending line" note, the per-station label produced from the
station value, the units note built from the UNITS constant, and the fixed
"Development View" title.  Each is a function of the shown payload, which is
what matters for the geometric claims. -/
inductive TextContent
  | bendingLine
  | stationLabel (y : ℚ)
  | unitsLabel (u : String)
  | title
deriving DecidableEq

/-- An entity handed to the drawing emitter (msp.add_line / add_spline /
add_circle / add_text), with the layer it is placed on. -/
inductive Entity
  | line (a b : Pt) (layer : String)
  | spline (pts : List Pt) (layer : String)
  | circle (center : Pt) (r : ℚ) (layer : String)
  | text (content : TextContent) (insert : Pt) (layer : String) (height : ℚ)
deriving DecidableEq

/-- Runtime failures of the script.  indexError is what Python raises when
the empty profile list is indexed.  configurationError is modelled from the
spec: a validation error naming the offending field, which the spec demands
for an empty profile; the script itself never raises it. -/
inductive PyError
  | indexError
  | configurationError (field : String)
deriving DecidableEq

/-- add_circle (lines 63-65): ezdxf stores the radius d / 2. -/
def addCircleEnt (center : Pt) (d : ℚ) (layer : String) : Entity :=
  Entity.circle center (d / 2) layer

/-- The loop body of dashed_line (lines 79-86): iterate over the remaining
indices, tracking the draw/skip flag, emitting the sub-segment
[lerp p1 p2 (i/80), lerp p1 p2 ((i+1)/80)] whenever the flag is on and
toggling the flag after every interval. -/
def dashedLineGo (p1 p2 : Pt) (layer : String) : List ℕ → Bool → List Entity
  | [], _ => []
  | i :: is, draw =>
    let t0 : ℚ := (i : ℚ) / 80
    let t1 : ℚ := ((i : ℚ) + 1) / 80
    let a := lerp p1 p2 t0
    let b := lerp p1 p2 t1
    (if draw then [Entity.line a b layer] else []) ++ dashedLineGo p1 p2 layer is (!draw)

/-- dashed_line (lines 75-86): segs = 80 sub-intervals of [0,1], starting in
the draw state. -/
def dashed_line (p1 p2 : Pt) (layer : String) : List Entity :=
  dashedLineGo p1 p2 layer (List.range 80) true

instance : DecidableRel (fun a b : Pt => a.1 ≤ b.1) :=
  fun a b => inferInstanceAs (Decidable (a.1 ≤ b.1))

/-- sorted(right_edge_profile, key=lambda t: t[0]) (line 144).  Python's sort
is stable; insertion sort with the non-strict comparison on the key is the
same stable sort by the first component. -/
def sortByFst (l : List Pt) : List Pt :=
  List.insertionSort (fun a b : Pt => a.1 ≤ b.1) l

/-- The interpolation formula of lines 153-154:
t = (y - y0) / (y1 - y0) if y1 != y0 else 0.0, returning x0 + t * (x1 - x0). -/
def interp (p q : Pt) (y : ℚ) : ℚ :=
  p.2 + (if q.1 ≠ p.1 then (y - p.1) / (q.1 - p.1) else 0) * (q.2 - p.2)

/-- The span search of lines 151-154: walk zip(rp, rp[1:]) and return the
interpolated value of the first span with y0 <= y <= y1, none when no span
brackets y. -/
def spanScan (y : ℚ) : List Pt → Option ℚ
  | (y0, x0) :: (y1, x1) :: rest =>
    if y0 ≤ y ∧ y ≤ y1 then some (interp (y0, x0) (y1, x1) y)
    else spanScan y ((y1, x1) :: rest)
  | _ => none

/-- right_x_at (lines 143-155): sort the profile by the first component,
clamp below the first breakpoint to the first x and at or above the last
breakpoint to the last x, otherwise scan for the bracketing span; the final
fallback return rp[-1][1] is kept.  none models the IndexError that rp[0]
raises on an empty profile. -/
def right_x_at (profile : List Pt) (y_query : ℚ) : Option ℚ :=
  match sortByFst profile with
  | [] => none
  | p :: l =>
    if y_query ≤ p.1 then some p.2
    else if (l.getLastD p).1 ≤ y_query then some (l.getLastD p).2
    else
      match spanScan y_query (p :: l) with
      | some v => some v
      | none => some (l.getLastD p).2

/-- Spec-side notion for claim C3: the first profile point attaining the
smallest first component (earlier point wins ties). -/
def firstMinPt : List Pt → Option Pt
  | [] => none
  | p :: l =>
    match firstMinPt l with
    | none => some p
    | some q => if p.1 ≤ q.1 then some p else some q

/-- Spec-side notion for claim C3: the last profile point attaining the
largest first component (later point wins ties). -/
def lastMaxPt : List Pt → Option Pt
  | [] => none
  | p :: l =>
    match lastMaxPt l with
    | none => some p
    | some q => if q.1 < p.1 then some p else some q

/-- The PARAMETERS block (lines 14-60), as an explicit parameter set. -/
structure Params where
  overall_len : ℚ
  top_left_flange : ℚ
  top_right_flange : ℚ
  bot_left_return : ℚ
  bot_right_width : ℚ
  bottom_gauge_width : ℚ
  left_x : ℚ
  right_edge_profile : List Pt
  stations : List ℚ
  hole_offset_from_left : ℚ
  hole_offset_from_right : ℚ
  hole_dia : ℚ
  bending_line_y : ℚ
  txt_h : ℚ
  units : String

/-- The left-holes loop (lines 136-139). -/
def leftHoles (P : Params) : List Entity :=
  P.stations.map fun y =>
    addCircleEnt (P.left_x + P.hole_offset_from_left, y) P.hole_dia "HOLES_L"

/-- The right-holes loop (lines 157-161).  On a non-empty profile right_x_at
is always some value, so the getD default is never consulted. -/
def rightHoles (P : Params) (profile : List Pt) : List Entity :=
  P.stations.map fun y =>
    addCircleEnt ((right_x_at profile y).getD 0 - P.hole_offset_from_right, y)
      P.hole_dia "HOLES_R"

/-- The station ticks-and-labels loop (lines 169-171). -/
def stationTicks (P : Params) : List Entity :=
  P.stations.flatMap fun y =>
    [ Entity.line (P.left_x - 8, y) (P.left_x, y) "CENTER",
      Entity.text (TextContent.stationLabel y) (P.left_x - 40, y - 3) "NOTES" 8 ]

/-- The module-level build (lines 100-174): corner points, outline, holes,
bending line, ticks and notes, in emission order.  With an empty profile the
script keeps the provisional top-right span and then raises IndexError at
right_edge_profile[-1] (line 117), before any entity is emitted. -/
def build (P : Params) : Except PyError (List Entity) :=
  let top_y : ℚ := 0
  let bot_y : ℚ := P.overall_len
  let left_top : Pt := (P.left_x, top_y)
  let left_bot : Pt := (P.left_x, bot_y)
  let top_left_in : Pt := (P.left_x + P.top_left_flange, top_y)
  let top_right_provisional : Pt :=
    (P.left_x + P.top_left_flange + 300 + P.top_right_flange, top_y)
  let top_right : Pt :=
    match P.right_edge_profile with
    | [] => top_right_provisional
    | q :: _ => (q.2, q.1)
  let bot_left_out : Pt := (P.bot_left_return, bot_y)
  match P.right_edge_profile with
  | [] => Except.error PyError.indexError
  | p :: rest =>
    let lastPt := rest.getLastD p
    let bot_right_pt : Pt := (lastPt.2, lastPt.1)
    let right_pts : List Pt := (p :: rest).map fun q => (q.2, q.1)
    Except.ok (
      [ Entity.line left_top left_bot "OUTLINE",
        Entity.line left_top top_left_in "OUTLINE",
        Entity.line top_left_in top_right "OUTLINE",
        Entity.spline right_pts "OUTLINE",
        Entity.line bot_right_pt bot_left_out "OUTLINE",
        Entity.line bot_left_out left_bot "OUTLINE" ]
      ++ leftHoles P
      ++ rightHoles P (p :: rest)
      ++ dashed_line (P.left_x, P.bending_line_y) (lastPt.2, P.bending_line_y) "CENTER"
      ++ [ Entity.text TextContent.bendingLine
            (P.left_x + 10, P.bending_line_y + 12) "NOTES" P.txt_h ]
      ++ stationTicks P
      ++ [ Entity.text (TextContent.unitsLabel P.units) (10, P.overall_len + 40) "NOTES" 8,
           Entity.text TextContent.title (10, P.overall_len + 20) "NOTES" 10 ] )

/-- Is this entity a hole circle on the given layer? -/
def isHoleOn (layer : String) : Entity → Bool
  | Entity.circle _ _ L => L == layer
  | _ => false

/-- Did the run fail with the spec-mandated configuration error? -/
def failsWithConfigurationError (r : Except PyError (List Entity)) : Bool :=
  match r with
  | Except.error (PyError.configurationError _) => true
  | _ => false

/-- The script's own PARAMETERS block values (lines 14-60). -/
def defaultParams : Params :=
  { overall_len := 1670, top_left_flange := 35, top_right_flange := 16,
    bot_left_return := 83, bot_right_width := 330, bottom_gauge_width := 345,
    left_x := 0,
    right_edge_profile :=
      [(0, 35 + 350), (235, 360), (435, 368), (635, 372), (835, 374),
       (1035, 372), (1235, 368), (1435, 360), (1635, 345)],
    stations := [55, 285, 515, 835, 1155, 1385, 1615],
    hole_offset_from_left := 20, hole_offset_from_right := 20,
    hole_dia := 14, bending_line_y := 1385, txt_h := 10, units := "mm" }

/-- The end-to-end scenario of the spec: overall_len 1000, profile
[(0,350),(1000,400)], stations [500], both hole offsets 20. -/
def scenarioParams : Params :=
  { overall_len := 1000, top_left_flange := 35, top_right_flange := 16,
    bot_left_return := 83, bot_right_width := 330, bottom_gauge_width := 345,
    left_x := 0,
    right_edge_profile := [(0, 350), (1000, 400)],
    stations := [500],
    hole_offset_from_left := 20, hole_offset_from_right := 20,
    hole_dia := 14, bending_line_y := 500, txt_h := 10, units := "mm" }

/-- The scenario parameter set with a duplicated station entry. -/
def dupParams : Params :=
  { scenarioParams with stations := [500, 500] }

/-- The scenario parameter set with an emptied right-edge profile. -/
def emptyParams : Params :=
  { scenarioParams with right_edge_profile := [] }

/-! ### Helper lemmas about the dashed-line renderer -/

/-- Everything the dashed-line helper emits is a line on its layer. -/
lemma dashedLineGo_mem_line (p1 p2 : Pt) (layer : String) :
    ∀ (is : List ℕ) (d : Bool) (e : Entity), e ∈ dashedLineGo p1 p2 layer is d →
      ∃ a b, e = Entity.line a b layer := by
  intro is
  induction is with
  | nil => intro d e h; simp [dashedLineGo] at h
  | cons i is ih =>
    intro d e h
    simp only [dashedLineGo, List.mem_append] at h
    rcases h with h | h
    · cases d
      · simp at h
      · simp at h; exact ⟨_, _, h⟩
    · exact ih _ _ h

/-- Two iterations of the dashed-line loop starting in the draw state emit
the first sub-segment and skip the second. -/
lemma dashedLineGo_range_even (p1 p2 : Pt) (layer : String) :
    ∀ (n s : ℕ), dashedLineGo p1 p2 layer (List.range' s (2 * n)) true
      = (List.range n).map (fun j =>
          Entity.line (lerp p1 p2 (((s + 2 * j : ℕ) : ℚ) / 80))
            (lerp p1 p2 ((((s + 2 * j : ℕ) : ℚ) + 1) / 80)) layer) := by
  intro n
  induction n with
  | zero => intro s; simp [dashedLineGo]
  | succ n ih =>
    intro s
    have h2 : 2 * (n + 1) = (2 * n + 1) + 1 := by ring
    rw [h2, List.range'_succ, List.range'_succ]
    simp only [dashedLineGo, if_pos, Bool.not_true, Bool.not_false, if_neg,
      List.nil_append, List.cons_append]
    rw [ih (s + 1 + 1)]
    rw [List.range_succ_eq_map, List.map_cons, List.map_map]
    refine List.cons_eq_cons.mpr ⟨?_, ?_⟩
    · norm_num
    · apply List.map_congr_left
      intro j _
      have e1 : ((s + 1 + 1 + 2 * j : ℕ) : ℚ) = ((s + 2 * Nat.succ j : ℕ) : ℚ) := by
        push_cast; ring
      simp [e1]

/-- The mapped-interval form of dashed_line: exactly the even-indexed
sub-intervals are drawn. -/
lemma dashed_line_eq_map (p1 p2 : Pt) (layer : String) :
    dashed_line p1 p2 layer =
      (List.range 40).map (fun j =>
        Entity.line (lerp p1 p2 (((2 * j : ℕ) : ℚ) / 80))
          (lerp p1 p2 (((2 * j + 1 : ℕ) : ℚ) / 80)) layer) := by
  rw [dashed_line, List.range_eq_range', show (80 : ℕ) = 2 * 40 from rfl,
    dashedLineGo_range_even]
  apply List.map_congr_left
  intro j _
  have e1 : ((0 + 2 * j : ℕ) : ℚ) = ((2 * j : ℕ) : ℚ) := by push_cast; ring
  have e2 : (((2 * j : ℕ) : ℚ) + 1) = ((2 * j + 1 : ℕ) : ℚ) := by push_cast; ring
  rw [e1, e2]

/-- Interpolating strictly before the far endpoint never lands on it
(for distinct endpoints). -/
lemma lerp_ne_right (p1 p2 : Pt) (t : ℚ) (hne : p1 ≠ p2) (ht : t ≠ 1) :
    lerp p1 p2 t ≠ p2 := by
  intro h
  apply hne
  have h1 : p1.1 + (p2.1 - p1.1) * t = p2.1 := congrArg Prod.fst h
  have h2 : p1.2 + (p2.2 - p1.2) * t = p2.2 := congrArg Prod.snd h
  have e1 : (p2.1 - p1.1) * (t - 1) = 0 := by linear_combination h1
  have e2 : (p2.2 - p1.2) * (t - 1) = 0 := by linear_combination h2
  have ht1 : t - 1 ≠ 0 := sub_ne_zero.mpr ht
  have q1 : p1.1 = p2.1 := by
    rcases mul_eq_zero.mp e1 with h | h
    · linarith [sub_eq_zero.mp h]
    · exact absurd h ht1
  have q2 : p1.2 = p2.2 := by
    rcases mul_eq_zero.mp e2 with h | h
    · linarith [sub_eq_zero.mp h]
    · exact absurd h ht1
  exact Prod.ext q1 q2

/-! ### Claims C6 and C10: the dashed-line renderer -/

/-- C6: dashed_line between (0,0) and (800,0) subdivides into 80 equal
intervals, starts drawing, alternates, and so emits exactly 40 drawn
sub-segments, each of length 10 (horizontal: same y, x extent 10). -/
theorem dashed_line_concrete :
    (dashed_line ((0 : ℚ), (0 : ℚ)) ((800 : ℚ), (0 : ℚ)) "CENTER").length = 40 ∧
    (dashed_line ((0 : ℚ), (0 : ℚ)) ((800 : ℚ), (0 : ℚ)) "CENTER").all
      (fun e =>
        match e with
        | Entity.line a b _ => decide (b.1 - a.1 = 10 ∧ a.2 = 0 ∧ b.2 = 0)
        | _ => false) = true := by
  rw [dashed_line_eq_map]
  constructor
  · simp
  · rw [List.all_eq_true]
    intro e he
    obtain ⟨j, _, rfl⟩ := List.mem_map.mp he
    refine decide_eq_true ⟨?_, ?_, ?_⟩
    · show (0 : ℚ) + (800 - 0) * (((2 * j + 1 : ℕ) : ℚ) / 80)
        - ((0 : ℚ) + (800 - 0) * (((2 * j : ℕ) : ℚ) / 80)) = 10
      push_cast; ring
    · show (0 : ℚ) + ((0 : ℚ) - 0) * (((2 * j : ℕ) : ℚ) / 80) = 0
      ring
    · show (0 : ℚ) + ((0 : ℚ) - 0) * (((2 * j + 1 : ℕ) : ℚ) / 80) = 0
      ring

/-- C10 (amended): dashed_line draws exactly the even-indexed intervals
0, 2, ..., 78 of the 80 equal parametric sub-intervals; the last interval
(index 79) is always skipped, so the drawn portion ends at parameter 79/80,
and, provided P1 and P2 are distinct, no drawn sub-segment has P2 as an
endpoint. -/
theorem dashed_line_even_intervals (p1 p2 : Pt) (layer : String) :
    dashed_line p1 p2 layer =
      (List.range 40).map (fun j =>
        Entity.line (lerp p1 p2 (((2 * j : ℕ) : ℚ) / 80))
          (lerp p1 p2 (((2 * j + 1 : ℕ) : ℚ) / 80)) layer) ∧
    (dashed_line p1 p2 layer).getLast? =
      some (Entity.line (lerp p1 p2 (78 / 80)) (lerp p1 p2 (79 / 80)) layer) ∧
    (p1 ≠ p2 → ∀ j ∈ List.range 40,
      lerp p1 p2 (((2 * j : ℕ) : ℚ) / 80) ≠ p2 ∧
      lerp p1 p2 (((2 * j + 1 : ℕ) : ℚ) / 80) ≠ p2) := by
  refine ⟨dashed_line_eq_map p1 p2 layer, ?_, ?_⟩
  · rw [dashed_line_eq_map, List.getLast?_map]
    have h39 : (List.range 40).getLast? = some 39 := by
      rw [List.range_eq_range']
      simp [List.getLast?_range']
    rw [h39]
    have e1 : (((2 * 39 : ℕ) : ℚ) / 80) = 78 / 80 := by norm_num
    have e2 : (((2 * 39 + 1 : ℕ) : ℚ) / 80) = 79 / 80 := by norm_num
    simp [e1, e2]
    constructor <;> congr 1 <;> norm_num
  · intro hne j hj
    have hjlt : j < 40 := List.mem_range.mp hj
    constructor
    · refine lerp_ne_right p1 p2 _ hne ?_
      intro hcon
      field_simp at hcon
      have : (2 * j : ℕ) = 80 := by exact_mod_cast hcon
      omega
    · refine lerp_ne_right p1 p2 _ hne ?_
      intro hcon
      field_simp at hcon
      have : (2 * j + 1 : ℕ) = 80 := by exact_mod_cast hcon
      omega

/-- C10 counterexample to the claim as stated: with P1 = P2 = (0,0) every
drawn sub-segment degenerates to the single point (0,0) = P2, so a drawn
sub-segment does have P2 as an endpoint. -/
theorem dashed_line_degenerate_counterexample :
    Entity.line ((0 : ℚ), (0 : ℚ)) ((0 : ℚ), (0 : ℚ)) "CENTER" ∈
      dashed_line ((0 : ℚ), (0 : ℚ)) ((0 : ℚ), (0 : ℚ)) "CENTER" := by
  rw [dashed_line_eq_map]
  refine List.mem_map.mpr ⟨0, by simp, ?_⟩
  norm_num [lerp]

/-- Witness for C10 at P1 = (0,0), P2 = (800,0), j = 0: the first drawn
sub-segment avoids P2. -/
theorem dashed_line_even_intervals_witness :
    (dashed_line ((0 : ℚ), (0 : ℚ)) ((800 : ℚ), (0 : ℚ)) "CENTER").getLast? =
      some (Entity.line
        (lerp ((0 : ℚ), (0 : ℚ)) ((800 : ℚ), (0 : ℚ)) (78 / 80))
        (lerp ((0 : ℚ), (0 : ℚ)) ((800 : ℚ), (0 : ℚ)) (79 / 80)) "CENTER") ∧
    lerp ((0 : ℚ), (0 : ℚ)) ((800 : ℚ), (0 : ℚ)) (((2 * 0 : ℕ) : ℚ) / 80) ≠
      ((800 : ℚ), (0 : ℚ)) ∧
    lerp ((0 : ℚ), (0 : ℚ)) ((800 : ℚ), (0 : ℚ)) (((2 * 0 + 1 : ℕ) : ℚ) / 80) ≠
      ((800 : ℚ), (0 : ℚ)) := by
  have h := dashed_line_even_intervals ((0 : ℚ), (0 : ℚ)) ((800 : ℚ), (0 : ℚ)) "CENTER"
  exact ⟨h.2.1, h.2.2 (by norm_num [Prod.ext_iff]) 0 (by simp)⟩

/-! ### Helper lemmas about the stable sort and the interpolator -/

/-- getLast? of a cons cell, phrased through getLastD. -/
lemma getLast?_cons_getLastD (p : Pt) : ∀ l : List Pt, (p :: l).getLast? = some (l.getLastD p) := by
  intro l
  induction l generalizing p with
  | nil => rfl
  | cons c u ih => rw [List.getLast?_cons_cons, ih, List.getLastD_cons]

/-- getLast of a cons cell, phrased through getLastD. -/
lemma getLast_cons_getLastD (p : Pt) (l : List Pt) (h : p :: l ≠ []) :
    (p :: l).getLast h = l.getLastD p := by
  have h1 := List.getLast?_eq_getLast (p :: l) h
  have h2 := getLast?_cons_getLastD p l
  rw [h1] at h2
  exact Option.some.inj h2

/-- getLastD as an indexed access into the cons cell. -/
lemma getLastD_eq_get (p : Pt) : ∀ l : List Pt,
    l.getLastD p = (p :: l).get ⟨l.length, by simp⟩ := by
  intro l
  induction l generalizing p with
  | nil => rfl
  | cons c u ih => rw [List.getLastD_cons, ih c]; rfl

/-- Head of an ordered insertion. -/
lemma head?_orderedInsert (a : Pt) (s : List Pt) :
    (List.orderedInsert (fun x z : Pt => x.1 ≤ z.1) a s).head? =
      match s.head? with
      | none => some a
      | some b => if a.1 ≤ b.1 then some a else some b := by
  cases s with
  | nil => rfl
  | cons b t =>
    simp only [List.orderedInsert, List.head?]
    by_cases h : a.1 ≤ b.1
    · rw [if_pos h, if_pos h]
    · rw [if_neg h, if_neg h]

/-- Ordered insertion never returns the empty list. -/
lemma orderedInsert_ne_nil (a : Pt) (s : List Pt) :
    List.orderedInsert (fun x z : Pt => x.1 ≤ z.1) a s ≠ [] := by
  cases s with
  | nil => simp [List.orderedInsert]
  | cons b t =>
    simp only [List.orderedInsert]
    split <;> simp

/-- One unfolding step of the insertion sort behind sortByFst. -/
lemma sortByFst_cons (a : Pt) (t : List Pt) :
    sortByFst (a :: t) = List.orderedInsert (fun x z : Pt => x.1 ≤ z.1) a (sortByFst t) := by
  simp [sortByFst, List.insertionSort]

/-- The head of the stable sort is the first profile point attaining the
smallest first component. -/
lemma sortByFst_head? : ∀ l : List Pt, (sortByFst l).head? = firstMinPt l := by
  intro l
  induction l with
  | nil => rfl
  | cons a t ih =>
    rw [sortByFst_cons, head?_orderedInsert, ih]
    cases h : firstMinPt t <;> simp [firstMinPt, h]

/-- getLast? of an ordered insertion: the inserted element lands at the end
exactly when it is strictly larger than everything present. -/
lemma getLast?_orderedInsert (a : Pt) : ∀ s : List Pt,
    (List.orderedInsert (fun x z : Pt => x.1 ≤ z.1) a s).getLast? =
      if ∀ b ∈ s, b.1 < a.1 then some a else s.getLast? := by
  intro s
  induction s with
  | nil => simp [List.orderedInsert]
  | cons b t ih =>
    simp only [List.orderedInsert]
    by_cases hab : a.1 ≤ b.1
    · rw [if_pos hab, List.getLast?_cons_cons, if_neg]
      intro hall
      exact absurd hab (not_le.mpr (hall b (by simp)))
    · rw [if_neg hab]
      obtain ⟨x, xs, hx⟩ : ∃ x xs,
          List.orderedInsert (fun x z : Pt => x.1 ≤ z.1) a t = x :: xs := by
        cases h : List.orderedInsert (fun x z : Pt => x.1 ≤ z.1) a t with
        | nil => exact absurd h (orderedInsert_ne_nil a t)
        | cons x xs => exact ⟨x, xs, rfl⟩
      rw [hx, List.getLast?_cons_cons, ← hx, ih]
      by_cases ht : ∀ c ∈ t, c.1 < a.1
      · rw [if_pos ht, if_pos]
        intro c hc
        rcases List.mem_cons.mp hc with rfl | hc
        · exact not_le.mp hab
        · exact ht c hc
      · rw [if_neg ht, if_neg]
        · cases t with
          | nil => exact absurd (by simp) ht
          | cons c u => rw [List.getLast?_cons_cons]
        · intro hall
          exact ht fun c hc => hall c (List.mem_cons_of_mem b hc)

/-- firstMinPt returns none exactly on the empty list. -/
lemma firstMinPt_eq_none_iff : ∀ l : List Pt, firstMinPt l = none ↔ l = [] := by
  intro l
  cases l with
  | nil => simp [firstMinPt]
  | cons a t =>
    cases h : firstMinPt t <;> simp [firstMinPt, h]
    split <;> simp

/-- lastMaxPt returns none exactly on the empty list. -/
lemma lastMaxPt_eq_none_iff : ∀ l : List Pt, lastMaxPt l = none ↔ l = [] := by
  intro l
  cases l with
  | nil => simp [lastMaxPt]
  | cons a t =>
    cases h : lastMaxPt t <;> simp [lastMaxPt, h]
    split <;> simp

/-- What firstMinPt returns is a member attaining the minimum. -/
lemma firstMinPt_spec : ∀ (l : List Pt) (q : Pt), firstMinPt l = some q →
    q ∈ l ∧ ∀ p ∈ l, q.1 ≤ p.1 := by
  intro l
  induction l with
  | nil => intro q h; simp [firstMinPt] at h
  | cons a t ih =>
    intro q h
    cases ht : firstMinPt t with
    | none =>
      simp only [firstMinPt, ht] at h
      obtain rfl : a = q := Option.some.inj h
      obtain rfl : t = [] := (firstMinPt_eq_none_iff t).mp ht
      exact ⟨by simp, by simp⟩
    | some m =>
      obtain ⟨hmem, hmin⟩ := ih m ht
      simp only [firstMinPt, ht] at h
      by_cases ham : a.1 ≤ m.1
      · rw [if_pos ham] at h
        obtain rfl : a = q := Option.some.inj h
        refine ⟨by simp, ?_⟩
        intro p hp
        rcases List.mem_cons.mp hp with rfl | hp
        · exact le_refl _
        · exact le_trans ham (hmin p hp)
      · rw [if_neg ham] at h
        obtain rfl : m = q := Option.some.inj h
        refine ⟨List.mem_cons_of_mem a hmem, ?_⟩
        intro p hp
        rcases List.mem_cons.mp hp with rfl | hp
        · exact le_of_lt (not_le.mp ham)
        · exact hmin p hp

/-- What lastMaxPt returns is a member attaining the maximum. -/
lemma lastMaxPt_spec : ∀ (l : List Pt) (q : Pt), lastMaxPt l = some q →
    q ∈ l ∧ ∀ p ∈ l, p.1 ≤ q.1 := by
  intro l
  induction l with
  | nil => intro q h; simp [lastMaxPt] at h
  | cons a t ih =>
    intro q h
    cases ht : lastMaxPt t with
    | none =>
      simp only [lastMaxPt, ht] at h
      obtain rfl : a = q := Option.some.inj h
      obtain rfl : t = [] := (lastMaxPt_eq_none_iff t).mp ht
      exact ⟨by simp, by simp⟩
    | some m =>
      obtain ⟨hmem, hmax⟩ := ih m ht
      simp only [lastMaxPt, ht] at h
      by_cases hma : m.1 < a.1
      · rw [if_pos hma] at h
        obtain rfl : a = q := Option.some.inj h
        refine ⟨by simp, ?_⟩
        intro p hp
        rcases List.mem_cons.mp hp with rfl | hp
        · exact le_refl _
        · exact le_trans (hmax p hp) (le_of_lt hma)
      · rw [if_neg hma] at h
        obtain rfl : m = q := Option.some.inj h
        refine ⟨List.mem_cons_of_mem a hmem, ?_⟩
        intro p hp
        rcases List.mem_cons.mp hp with rfl | hp
        · exact not_lt.mp hma
        · exact hmax p hp

/-- The last element of the stable sort is the last profile point attaining
the largest first component. -/
lemma sortByFst_getLast? : ∀ l : List Pt, (sortByFst l).getLast? = lastMaxPt l := by
  intro l
  induction l with
  | nil => rfl
  | cons a t ih =>
    rw [sortByFst_cons, getLast?_orderedInsert]
    have hmem : ∀ c : Pt, c ∈ sortByFst t ↔ c ∈ t := fun c =>
      (List.perm_insertionSort (fun x z : Pt => x.1 ≤ z.1) t).mem_iff
    by_cases hall : ∀ c ∈ t, c.1 < a.1
    · rw [if_pos fun c hc => hall c ((hmem c).mp hc)]
      cases h : lastMaxPt t with
      | none =>
        obtain rfl : t = [] := (lastMaxPt_eq_none_iff t).mp h
        simp [lastMaxPt]
      | some m =>
        obtain ⟨hm, _⟩ := lastMaxPt_spec t m h
        simp only [lastMaxPt, h]
        rw [if_pos (hall m hm)]
    · rw [if_neg fun hc => hall fun c hcc => hc c ((hmem c).mpr hcc), ih]
      push_neg at hall
      obtain ⟨c0, hc0, hac0⟩ := hall
      cases h : lastMaxPt t with
      | none =>
        obtain rfl : t = [] := (lastMaxPt_eq_none_iff t).mp h
        exact absurd hc0 (List.not_mem_nil c0)
      | some m =>
        obtain ⟨_, hmax⟩ := lastMaxPt_spec t m h
        have ham : a.1 ≤ m.1 := le_trans hac0 (hmax c0 hc0)
        simp only [lastMaxPt, h]
        rw [if_neg (not_lt.mpr ham)]

/-- The span scan of right_x_at finds a bracketing adjacent pair whenever
the query lies strictly above the head and at most the last breakpoint,
and returns the code's interpolation formula on that pair. -/
lemma spanScan_bracket (y : ℚ) : ∀ (l : List Pt) (a : Pt),
    a.1 < y → y ≤ (l.getLastD a).1 →
    ∃ k, ∃ hk : k + 1 < (a :: l).length,
      ((a :: l).get ⟨k, Nat.lt_of_succ_lt hk⟩).1 ≤ y ∧
      y ≤ ((a :: l).get ⟨k + 1, hk⟩).1 ∧
      spanScan y (a :: l) =
        some (interp ((a :: l).get ⟨k, Nat.lt_of_succ_lt hk⟩) ((a :: l).get ⟨k + 1, hk⟩) y) := by
  intro l
  induction l with
  | nil =>
    intro a ha hlast
    exact absurd (lt_of_lt_of_le ha hlast) (lt_irrefl _)
  | cons b t ih =>
    intro a ha hlast
    by_cases hb : y ≤ b.1
    · refine ⟨0, by simp, le_of_lt ha, hb, ?_⟩
      obtain ⟨a1, a2⟩ := a
      obtain ⟨b1, b2⟩ := b
      simp only [spanScan]
      rw [if_pos ⟨le_of_lt ha, hb⟩]
      rfl
    · push_neg at hb
      rw [List.getLastD_cons] at hlast
      obtain ⟨k, hk, h1, h2, h3⟩ := ih b hb hlast
      refine ⟨k + 1, Nat.succ_lt_succ hk, ?_, ?_, ?_⟩
      · simpa using h1
      · simpa using h2
      · obtain ⟨a1, a2⟩ := a
        obtain ⟨b1, b2⟩ := b
        simp only [spanScan]
        rw [if_neg fun hcon => absurd hcon.2 (not_le.mpr hb)]
        simpa using h3

/-! ### Claims C1, C3, C4: the profile interpolator -/

/-- C1: on a profile sorted ascending by its first component, for a query y
strictly between the first and last breakpoints, right_x_at finds a
bracketing adjacent pair (y0,x0),(y1,x1) with y0 <= y <= y1 and returns
x0 + (y-y0)/(y1-y0)*(x1-x0), returning x0 when y1 = y0; and in particular
right_x_at(500) = 375 on the profile [(0,350),(1000,400)]. -/
theorem right_x_at_interpolates :
    (∀ (profile : List Pt) (y : ℚ),
      profile.Pairwise (fun a b : Pt => a.1 ≤ b.1) → ∀ hne : profile ≠ [],
      (profile.head hne).1 < y → y < (profile.getLast hne).1 →
      ∃ y0 x0 y1 x1 k, ∃ hk : k + 1 < profile.length,
        profile.get ⟨k, Nat.lt_of_succ_lt hk⟩ = (y0, x0) ∧
        profile.get ⟨k + 1, hk⟩ = (y1, x1) ∧
        y0 ≤ y ∧ y ≤ y1 ∧
        right_x_at profile y =
          some (if y1 = y0 then x0 else x0 + (y - y0) / (y1 - y0) * (x1 - x0))) ∧
    right_x_at [((0 : ℚ), (350 : ℚ)), ((1000 : ℚ), (400 : ℚ))] 500 = some 375 := by
  constructor
  · intro profile y hs hne hlo hhi
    obtain ⟨p, l, rfl⟩ : ∃ p l, profile = p :: l := by
      cases profile with
      | nil => exact absurd rfl hne
      | cons p l => exact ⟨p, l, rfl⟩
    have hsort : sortByFst (p :: l) = p :: l := List.Sorted.insertionSort_eq hs
    have hlo' : p.1 < y := hlo
    have hhi' : y < (l.getLastD p).1 := by
      rw [← getLast_cons_getLastD p l hne]; exact hhi
    obtain ⟨k, hk, h1, h2, h3⟩ := spanScan_bracket y l p hlo' (le_of_lt hhi')
    refine ⟨((p :: l).get ⟨k, Nat.lt_of_succ_lt hk⟩).1,
      ((p :: l).get ⟨k, Nat.lt_of_succ_lt hk⟩).2,
      ((p :: l).get ⟨k + 1, hk⟩).1, ((p :: l).get ⟨k + 1, hk⟩).2,
      k, hk, rfl, rfl, h1, h2, ?_⟩
    have hred : right_x_at (p :: l) y =
        some (interp ((p :: l).get ⟨k, Nat.lt_of_succ_lt hk⟩) ((p :: l).get ⟨k + 1, hk⟩) y) := by
      simp only [right_x_at, hsort]
      rw [if_neg (not_le.mpr hlo'), if_neg (not_le.mpr hhi'), h3]
    rw [hred]
    congr 1
    by_cases hyy : ((p :: l).get ⟨k + 1, hk⟩).1 = ((p :: l).get ⟨k, Nat.lt_of_succ_lt hk⟩).1
    · rw [if_pos hyy]
      simp only [interp]
      rw [if_neg (not_not_intro hyy)]
      ring
    · rw [if_neg hyy]
      simp only [interp]
      rw [if_pos hyy]
  · norm_num [right_x_at, sortByFst, List.insertionSort, List.orderedInsert, spanScan, interp,
      List.getLastD]

/-- Witness for C1 on the profile [(0,350),(1000,400)] at y = 500. -/
theorem right_x_at_interpolates_witness :
    (∃ y0 x0 y1 x1 k,
      ∃ hk : k + 1 < ([((0 : ℚ), (350 : ℚ)), ((1000 : ℚ), (400 : ℚ))] : List Pt).length,
      ([((0 : ℚ), (350 : ℚ)), ((1000 : ℚ), (400 : ℚ))] : List Pt).get
          ⟨k, Nat.lt_of_succ_lt hk⟩ = (y0, x0) ∧
      ([((0 : ℚ), (350 : ℚ)), ((1000 : ℚ), (400 : ℚ))] : List Pt).get ⟨k + 1, hk⟩ = (y1, x1) ∧
      y0 ≤ 500 ∧ (500 : ℚ) ≤ y1 ∧
      right_x_at [((0 : ℚ), (350 : ℚ)), ((1000 : ℚ), (400 : ℚ))] 500 =
        some (if y1 = y0 then x0 else x0 + (500 - y0) / (y1 - y0) * (x1 - x0))) ∧
    right_x_at [((0 : ℚ), (350 : ℚ)), ((1000 : ℚ), (400 : ℚ))] 500 = some 375 := by
  refine ⟨right_x_at_interpolates.1 [((0 : ℚ), (350 : ℚ)), ((1000 : ℚ), (400 : ℚ))] 500
    ?_ (by simp) ?_ ?_, right_x_at_interpolates.2⟩
  · norm_num [List.pairwise_cons]
  · show (0 : ℚ) < 500; norm_num
  · show (500 : ℚ) < 1000; norm_num

/-- C3 (amended): for a non-empty profile, a query at or below every
breakpoint returns the x of the first smallest-y profile point; a query at
or above every breakpoint returns the x of the last largest-y profile point
provided some breakpoint lies strictly below the query — when all
breakpoints equal the query the low clamp fires first and the first point's
x is returned instead. -/
theorem right_x_at_clamps (profile : List Pt) (y : ℚ) (hne : profile ≠ []) :
    ((∀ p ∈ profile, y ≤ p.1) →
      right_x_at profile y = (firstMinPt profile).map Prod.snd) ∧
    ((∀ p ∈ profile, p.1 ≤ y) → (∃ p ∈ profile, p.1 < y) →
      right_x_at profile y = (lastMaxPt profile).map Prod.snd) := by
  obtain ⟨q, m, hqm⟩ : ∃ q m, sortByFst profile = q :: m := by
    have hlen : (sortByFst profile).length = profile.length :=
      (List.perm_insertionSort (fun a b : Pt => a.1 ≤ b.1) profile).length_eq
    cases hsf : sortByFst profile with
    | nil =>
      rw [hsf] at hlen
      cases profile with
      | nil => exact absurd rfl hne
      | cons _ _ => simp at hlen
    | cons q m => exact ⟨q, m, rfl⟩
  have hhead : firstMinPt profile = some q := by
    rw [← sortByFst_head?, hqm]; rfl
  have hlast : lastMaxPt profile = some (m.getLastD q) := by
    rw [← sortByFst_getLast?, hqm, getLast?_cons_getLastD]
  have hq := firstMinPt_spec profile q hhead
  have hM := lastMaxPt_spec profile (m.getLastD q) hlast
  constructor
  · intro hall
    have hyq : y ≤ q.1 := hall q hq.1
    rw [hhead]
    simp only [right_x_at, hqm, Option.map]
    rw [if_pos hyq]
  · intro hall hex
    obtain ⟨c0, hc0, hc0y⟩ := hex
    have hqy : q.1 < y := lt_of_le_of_lt (hq.2 c0 hc0) hc0y
    have hMy : (m.getLastD q).1 ≤ y := hall _ hM.1
    rw [hlast]
    simp only [right_x_at, hqm, Option.map]
    rw [if_neg (not_le.mpr hqy), if_pos hMy]

/-- C3 counterexample to the claim as stated: on the profile [(5,1),(5,2)]
with query 5 (which is at and above the largest breakpoint), the last
largest-y profile point is (5,2), yet right_x_at returns 1, the x of the
first point, because the low clamp fires first. -/
theorem right_x_at_tie_counterexample :
    right_x_at [((5 : ℚ), (1 : ℚ)), ((5 : ℚ), (2 : ℚ))] 5 = some 1 ∧
    lastMaxPt [((5 : ℚ), (1 : ℚ)), ((5 : ℚ), (2 : ℚ))] = some (5, 2) ∧
    ((1 : ℚ) ≠ (2 : ℚ)) := by
  refine ⟨?_, ?_, by norm_num⟩
  · norm_num [right_x_at, sortByFst, List.insertionSort, List.orderedInsert, spanScan, interp,
      List.getLastD]
  · norm_num [lastMaxPt]

/-- Witness for C3 on the profile [(0,350),(1000,400)]: a query below every
breakpoint returns 350, a query above every breakpoint returns 400. -/
theorem right_x_at_clamps_witness :
    right_x_at [((0 : ℚ), (350 : ℚ)), ((1000 : ℚ), (400 : ℚ))] (-5) =
      (firstMinPt [((0 : ℚ), (350 : ℚ)), ((1000 : ℚ), (400 : ℚ))]).map Prod.snd ∧
    right_x_at [((0 : ℚ), (350 : ℚ)), ((1000 : ℚ), (400 : ℚ))] 2000 =
      (lastMaxPt [((0 : ℚ), (350 : ℚ)), ((1000 : ℚ), (400 : ℚ))]).map Prod.snd := by
  constructor
  · refine (right_x_at_clamps [((0 : ℚ), (350 : ℚ)), ((1000 : ℚ), (400 : ℚ))] (-5)
      (by simp)).1 ?_
    intro p hp
    rcases List.mem_cons.mp hp with rfl | hp
    · norm_num
    · rcases List.mem_cons.mp hp with rfl | hp
      · norm_num
      · simp at hp
  · refine (right_x_at_clamps [((0 : ℚ), (350 : ℚ)), ((1000 : ℚ), (400 : ℚ))] 2000
      (by simp)).2 ?_ ?_
    · intro p hp
      rcases List.mem_cons.mp hp with rfl | hp
      · norm_num
      · rcases List.mem_cons.mp hp with rfl | hp
        · norm_num
        · simp at hp
    · exact ⟨(0, 350), by simp, by norm_num⟩

/-- C4: on a profile strictly sorted by its first component, right_x_at
evaluated at any breakpoint y_k returns exactly the stored x_k, and both the
segment ending at a breakpoint and the segment starting at it interpolate to
the stored x-value there, so the two neighboring segments agree. -/
theorem right_x_at_at_breakpoints (profile : List Pt)
    (hs : profile.Pairwise (fun a b : Pt => a.1 < b.1)) (k : ℕ) (hk : k < profile.length) :
    right_x_at profile (profile.get ⟨k, hk⟩).1 = some (profile.get ⟨k, hk⟩).2 ∧
    ∀ hk1 : k + 1 < profile.length,
      interp (profile.get ⟨k, hk⟩) (profile.get ⟨k + 1, hk1⟩) (profile.get ⟨k, hk⟩).1 =
        (profile.get ⟨k, hk⟩).2 ∧
      interp (profile.get ⟨k, hk⟩) (profile.get ⟨k + 1, hk1⟩) (profile.get ⟨k + 1, hk1⟩).1 =
        (profile.get ⟨k + 1, hk1⟩).2 := by
  have hget := List.pairwise_iff_get.mp hs
  constructor
  · obtain ⟨p, l, rfl⟩ : ∃ p l, profile = p :: l := by
      cases profile with
      | nil => simp at hk
      | cons p l => exact ⟨p, l, rfl⟩
    have hsort : sortByFst (p :: l) = p :: l :=
      List.Sorted.insertionSort_eq (hs.imp fun h => le_of_lt h)
    by_cases h0 : (( (p :: l).get ⟨k, hk⟩).1) ≤ p.1
    · have hk0 : k = 0 := by
        by_contra hne0
        have hlt := hget ⟨0, by simp⟩ ⟨k, hk⟩ (by
          simp only [Fin.mk_lt_mk]
          omega)
        exact absurd (lt_of_lt_of_le hlt h0) (lt_irrefl _)
      subst hk0
      simp only [right_x_at, hsort]
      rw [if_pos h0]
      rfl
    · push_neg at h0
      by_cases hL : (l.getLastD p).1 ≤ ((p :: l).get ⟨k, hk⟩).1
      · have hkL : k = l.length := by
          by_contra hne0
          have hklt : k < l.length := by
            have := hk
            simp only [List.length_cons] at this
            omega
          have hlt := hget ⟨k, hk⟩ ⟨l.length, by simp⟩ (by
            simp only [Fin.mk_lt_mk]
            omega)
          rw [getLastD_eq_get p l] at hL
          exact absurd (lt_of_le_of_lt hL hlt) (lt_irrefl _)
        subst hkL
        simp only [right_x_at, hsort]
        rw [if_neg (not_le.mpr h0), if_pos hL, getLastD_eq_get p l]
      · push_neg at hL
        obtain ⟨j, hj, hj1, hj2, hj3⟩ :=
          spanScan_bracket ((p :: l).get ⟨k, hk⟩).1 l p h0 (le_of_lt hL)
        have hred : right_x_at (p :: l) ((p :: l).get ⟨k, hk⟩).1 =
            some (interp ((p :: l).get ⟨j, Nat.lt_of_succ_lt hj⟩)
              ((p :: l).get ⟨j + 1, hj⟩) ((p :: l).get ⟨k, hk⟩).1) := by
          simp only [right_x_at, hsort]
          rw [if_neg (not_le.mpr h0), if_neg (not_le.mpr hL), hj3]
        rw [hred]
        have hjk : j ≤ k := by
          by_contra hcon
          push_neg at hcon
          have hlt := hget ⟨k, hk⟩ ⟨j, Nat.lt_of_succ_lt hj⟩ (by
            simp only [Fin.mk_lt_mk]
            omega)
          exact absurd (lt_of_le_of_lt hj1 hlt) (lt_irrefl _)
        have hkj1 : k ≤ j + 1 := by
          by_contra hcon
          push_neg at hcon
          have hlt := hget ⟨j + 1, hj⟩ ⟨k, hk⟩ (by
            simp only [Fin.mk_lt_mk]
            omega)
          exact absurd (lt_of_lt_of_le hlt hj2) (lt_irrefl _)
        rcases (by omega : k = j ∨ k = j + 1) with rfl | rfl
        · congr 1
          simp [interp]
        · have hlt := hget ⟨j, Nat.lt_of_succ_lt hj⟩ ⟨j + 1, hj⟩ (by
            simp only [Fin.mk_lt_mk]
            omega)
          have hne12 : ((p :: l).get ⟨j + 1, hj⟩).1 ≠ ((p :: l).get ⟨j, Nat.lt_of_succ_lt hj⟩).1 :=
            ne_of_gt hlt
          congr 1
          rw [interp, if_pos hne12, div_self (sub_ne_zero.mpr hne12)]
          ring
  · intro hk1
    have hlt := hget ⟨k, hk⟩ ⟨k + 1, hk1⟩ (by
      simp only [Fin.mk_lt_mk]
      omega)
    have hne12 : (profile.get ⟨k + 1, hk1⟩).1 ≠ (profile.get ⟨k, hk⟩).1 := ne_of_gt hlt
    constructor
    · simp [interp]
    · rw [interp, if_pos hne12, div_self (sub_ne_zero.mpr hne12)]
      ring

/-- Witness for C4 on the strictly sorted profile [(0,350),(1000,400)] at
breakpoint index 0: right_x_at returns the stored 350 there, and the one
segment interpolates to 350 at its left end and 400 at its right end. -/
theorem right_x_at_at_breakpoints_witness :
    right_x_at [((0 : ℚ), (350 : ℚ)), ((1000 : ℚ), (400 : ℚ))] 0 = some 350 ∧
    interp ((0 : ℚ), (350 : ℚ)) ((1000 : ℚ), (400 : ℚ)) 0 = 350 ∧
    interp ((0 : ℚ), (350 : ℚ)) ((1000 : ℚ), (400 : ℚ)) 1000 = 400 := by
  have h := right_x_at_at_breakpoints [((0 : ℚ), (350 : ℚ)), ((1000 : ℚ), (400 : ℚ))]
    (by norm_num [List.pairwise_cons]) 0 (by simp)
  exact ⟨h.1, (h.2 (by simp)).1, (h.2 (by simp)).2⟩

/-! ### Helper lemmas about the build -/

/-- Entities of the left-holes loop are circles of radius hole_dia/2 on
layer HOLES_L at x = left_x + hole_offset_from_left. -/
lemma leftHoles_shape (P : Params) (e : Entity) (he : e ∈ leftHoles P) :
    ∃ y, e = Entity.circle (P.left_x + P.hole_offset_from_left, y) (P.hole_dia / 2) "HOLES_L" := by
  simp only [leftHoles, addCircleEnt, List.mem_map] at he
  obtain ⟨y, _, rfl⟩ := he
  exact ⟨y, rfl⟩

/-- Entities of the right-holes loop are circles of radius hole_dia/2 on
layer HOLES_R. -/
lemma rightHoles_shape (P : Params) (profile : List Pt) (e : Entity)
    (he : e ∈ rightHoles P profile) :
    ∃ c, e = Entity.circle c (P.hole_dia / 2) "HOLES_R" := by
  simp only [rightHoles, addCircleEnt, List.mem_map] at he
  obtain ⟨y, _, rfl⟩ := he
  exact ⟨_, rfl⟩

/-- Entities of the ticks loop are lines on CENTER or texts on NOTES. -/
lemma stationTicks_shape (P : Params) (e : Entity) (he : e ∈ stationTicks P) :
    (∃ a b, e = Entity.line a b "CENTER") ∨ (∃ c i h, e = Entity.text c i "NOTES" h) := by
  simp only [stationTicks, List.mem_flatMap] at he
  obtain ⟨y, _, hy⟩ := he
  rcases List.mem_cons.mp hy with rfl | hy
  · exact Or.inl ⟨_, _, rfl⟩
  · rcases List.mem_cons.mp hy with rfl | hy
    · exact Or.inr ⟨_, _, _, rfl⟩
    · simp at hy

/-- The left-holes loop consists of stations.length hole circles on HOLES_L. -/
lemma countP_L_leftHoles (P : Params) :
    (leftHoles P).countP (isHoleOn "HOLES_L") = P.stations.length := by
  rw [leftHoles, List.countP_map, List.countP_eq_length]
  intro a _
  rfl

/-- No HOLES_R hole circle appears in the left-holes loop. -/
lemma countP_R_leftHoles (P : Params) :
    (leftHoles P).countP (isHoleOn "HOLES_R") = 0 := by
  rw [List.countP_eq_zero]
  intro e he
  obtain ⟨y, rfl⟩ := leftHoles_shape P e he
  simp [isHoleOn]

/-- The right-holes loop consists of stations.length hole circles on HOLES_R. -/
lemma countP_R_rightHoles (P : Params) (profile : List Pt) :
    (rightHoles P profile).countP (isHoleOn "HOLES_R") = P.stations.length := by
  rw [rightHoles, List.countP_map, List.countP_eq_length]
  intro a _
  rfl

/-- No HOLES_L hole circle appears in the right-holes loop. -/
lemma countP_L_rightHoles (P : Params) (profile : List Pt) :
    (rightHoles P profile).countP (isHoleOn "HOLES_L") = 0 := by
  rw [List.countP_eq_zero]
  intro e he
  obtain ⟨c, rfl⟩ := rightHoles_shape P profile e he
  simp [isHoleOn]

/-- The dashed bending line contains no hole circles. -/
lemma countP_holes_dashed (L : String) (p1 p2 : Pt) (lay : String) :
    (dashed_line p1 p2 lay).countP (isHoleOn L) = 0 := by
  rw [List.countP_eq_zero]
  intro e he
  obtain ⟨a, b, rfl⟩ := dashedLineGo_mem_line p1 p2 lay (List.range 80) true e he
  simp [isHoleOn]

/-- The station ticks contain no hole circles. -/
lemma countP_holes_ticks (L : String) (P : Params) :
    (stationTicks P).countP (isHoleOn L) = 0 := by
  rw [List.countP_eq_zero]
  intro e he
  rcases stationTicks_shape P e he with ⟨a, b, rfl⟩ | ⟨c, i, h, rfl⟩ <;> simp [isHoleOn]

/-- Multiplicity of a left-hole circle in the left-holes loop: one per
occurrence of its station value. -/
lemma count_left_leftHoles (P : Params) (y : ℚ) :
    (leftHoles P).count
        (addCircleEnt (P.left_x + P.hole_offset_from_left, y) P.hole_dia "HOLES_L") =
      P.stations.count y := by
  have hinj : Function.Injective (fun s : ℚ =>
      addCircleEnt (P.left_x + P.hole_offset_from_left, s) P.hole_dia "HOLES_L") := by
    intro a b h
    simp only [addCircleEnt, Entity.circle.injEq, Prod.mk.injEq] at h
    exact h.1.2
  exact List.count_map_of_injective P.stations _ hinj y

/-- Multiplicity of a right-hole circle in the right-holes loop: one per
occurrence of its station value, with center x derived from right_x_at. -/
lemma count_right_rightHoles (P : Params) (profile : List Pt) (y x : ℚ)
    (hx : right_x_at profile y = some x) :
    (rightHoles P profile).count
        (addCircleEnt (x - P.hole_offset_from_right, y) P.hole_dia "HOLES_R") =
      P.stations.count y := by
  have hinj : Function.Injective (fun s : ℚ =>
      addCircleEnt ((right_x_at profile s).getD 0 - P.hole_offset_from_right, s)
        P.hole_dia "HOLES_R") := by
    intro a b h
    simp only [addCircleEnt, Entity.circle.injEq, Prod.mk.injEq] at h
    exact h.1.2
  have hye : addCircleEnt (x - P.hole_offset_from_right, y) P.hole_dia "HOLES_R" =
      (fun s : ℚ => addCircleEnt ((right_x_at profile s).getD 0 - P.hole_offset_from_right, s)
        P.hole_dia "HOLES_R") y := by
    simp [addCircleEnt, hx]
  rw [rightHoles, hye]
  exact List.count_map_of_injective P.stations _ hinj y

/-- A HOLES_L circle never occurs in the right-holes loop. -/
lemma count_circleL_rightHoles (P : Params) (profile : List Pt) (c : Pt) (r : ℚ) :
    (rightHoles P profile).count (Entity.circle c r "HOLES_L") = 0 := by
  rw [List.count_eq_zero]
  intro hmem
  obtain ⟨c2, heq⟩ := rightHoles_shape P profile _ hmem
  simp at heq

/-- A HOLES_R circle never occurs in the left-holes loop. -/
lemma count_circleR_leftHoles (P : Params) (c : Pt) (r : ℚ) :
    (leftHoles P).count (Entity.circle c r "HOLES_R") = 0 := by
  rw [List.count_eq_zero]
  intro hmem
  obtain ⟨y, heq⟩ := leftHoles_shape P _ hmem
  simp at heq

/-- No circle occurs in the dashed bending line. -/
lemma count_circle_dashed (p1 p2 : Pt) (lay : String) (c : Pt) (r : ℚ) (L : String) :
    (dashed_line p1 p2 lay).count (Entity.circle c r L) = 0 := by
  rw [List.count_eq_zero]
  intro hmem
  obtain ⟨a, b, heq⟩ := dashedLineGo_mem_line p1 p2 lay (List.range 80) true _ hmem
  simp at heq

/-- No circle occurs among the station ticks. -/
lemma count_circle_ticks (P : Params) (c : Pt) (r : ℚ) (L : String) :
    (stationTicks P).count (Entity.circle c r L) = 0 := by
  rw [List.count_eq_zero]
  intro hmem
  rcases stationTicks_shape P _ hmem with ⟨a, b, heq⟩ | ⟨tc, i, h, heq⟩ <;> simp at heq

/-- The multiplicity of the left hole at station y in the whole build output
is the multiplicity of y in the stations list. -/
lemma build_count_left_holes (P : Params) (p : Pt) (rest : List Pt)
    (hprof : P.right_edge_profile = p :: rest) (y : ℚ) :
    (build P).map (fun es =>
        es.count (addCircleEnt (P.left_x + P.hole_offset_from_left, y) P.hole_dia "HOLES_L")) =
      Except.ok (P.stations.count y) := by
  simp only [build, hprof, Except.map]
  congr 1
  simp only [List.count_append]
  rw [count_left_leftHoles P y]
  simp only [addCircleEnt]
  rw [count_circleL_rightHoles, count_circle_dashed, count_circle_ticks]
  simp [List.count_cons]

/-- The multiplicity of the right hole at station y in the whole build
output is the multiplicity of y in the stations list. -/
lemma build_count_right_holes (P : Params) (p : Pt) (rest : List Pt)
    (hprof : P.right_edge_profile = p :: rest) (y x : ℚ)
    (hx : right_x_at (p :: rest) y = some x) :
    (build P).map (fun es =>
        es.count (addCircleEnt (x - P.hole_offset_from_right, y) P.hole_dia "HOLES_R")) =
      Except.ok (P.stations.count y) := by
  simp only [build, hprof, Except.map]
  congr 1
  simp only [List.count_append]
  rw [count_right_rightHoles P (p :: rest) y x hx]
  simp only [addCircleEnt]
  rw [count_circleR_leftHoles, count_circle_dashed, count_circle_ticks]
  simp [List.count_cons]

/-! ### Claims C2, C5, C7, C8, C9: the build -/

/-- C2 (amended): for a stations list without duplicate values, the build
emits exactly one left hole centered at (left_x + hole_offset_from_left, y)
and exactly one right hole centered at (right_x_at(y) −
hole_offset_from_right, y) for every station y, both of diameter hole_dia;
with duplicated station entries one such hole pair appears per occurrence. -/
theorem build_hole_per_station (P : Params) (y x : ℚ)
    (hnd : P.stations.Nodup) (hy : y ∈ P.stations) (hne : P.right_edge_profile ≠ [])
    (hx : right_x_at P.right_edge_profile y = some x) :
    (build P).map (fun es =>
        es.count (addCircleEnt (P.left_x + P.hole_offset_from_left, y) P.hole_dia "HOLES_L")) =
      Except.ok 1 ∧
    (build P).map (fun es =>
        es.count (addCircleEnt (x - P.hole_offset_from_right, y) P.hole_dia "HOLES_R")) =
      Except.ok 1 := by
  obtain ⟨p, rest, hprof⟩ : ∃ p rest, P.right_edge_profile = p :: rest := by
    cases h : P.right_edge_profile with
    | nil => exact absurd h hne
    | cons p rest => exact ⟨p, rest, rfl⟩
  rw [hprof] at hx
  have hcount : P.stations.count y = 1 := List.count_eq_one_of_mem hnd hy
  constructor
  · rw [build_count_left_holes P p rest hprof y, hcount]
  · rw [build_count_right_holes P p rest hprof y x hx, hcount]

/-- C2 counterexample to the claim as stated: duplicating the station entry
500 makes the build emit two (not exactly one) left holes with center
(20, 500). -/
theorem build_dup_stations_counterexample :
    (build dupParams).map (fun es =>
        es.count (addCircleEnt ((20 : ℚ), (500 : ℚ)) 14 "HOLES_L")) = Except.ok 2 ∧
    (2 : ℕ) ≠ 1 := by
  refine ⟨?_, by norm_num⟩
  have he : addCircleEnt ((20 : ℚ), (500 : ℚ)) 14 "HOLES_L" =
      addCircleEnt (dupParams.left_x + dupParams.hole_offset_from_left, (500 : ℚ))
        dupParams.hole_dia "HOLES_L" := by
    simp only [addCircleEnt, dupParams, scenarioParams]
    norm_num
  rw [he, build_count_left_holes dupParams ((0 : ℚ), (350 : ℚ)) [((1000 : ℚ), (400 : ℚ))] rfl 500]
  congr 1

/-- Witness for C2 on the end-to-end scenario: one left hole at (20,500),
one right hole at (355,500). -/
theorem build_hole_per_station_witness :
    (build scenarioParams).map (fun es =>
        es.count (addCircleEnt
          (scenarioParams.left_x + scenarioParams.hole_offset_from_left, (500 : ℚ))
          scenarioParams.hole_dia "HOLES_L")) = Except.ok 1 ∧
    (build scenarioParams).map (fun es =>
        es.count (addCircleEnt ((375 : ℚ) - scenarioParams.hole_offset_from_right, (500 : ℚ))
          scenarioParams.hole_dia "HOLES_R")) = Except.ok 1 ∧
    scenarioParams.left_x + scenarioParams.hole_offset_from_left = 20 ∧
    (375 : ℚ) - scenarioParams.hole_offset_from_right = 355 := by
  have h := build_hole_per_station scenarioParams 500 375 (by simp [scenarioParams])
    (by simp [scenarioParams]) (by simp [scenarioParams])
    (by norm_num [scenarioParams, right_x_at, sortByFst, List.insertionSort, List.orderedInsert,
      spanScan, interp, List.getLastD])
  refine ⟨h.1, h.2, ?_, ?_⟩ <;> norm_num [scenarioParams]

/-- C5: the claim demands a ConfigurationError naming the offending field on
an empty right-edge profile; the script instead raises a bare IndexError at
right_edge_profile[-1] (line 117), after silently retaining the provisional
top-right corner.  The build does fail before emitting entities, but never
with the mandated ConfigurationError. -/
theorem build_empty_profile_index_error (P : Params) (h : P.right_edge_profile = []) :
    build P = Except.error PyError.indexError ∧
    failsWithConfigurationError (build P) = false := by
  have hb : build P = Except.error PyError.indexError := by
    simp only [build, h]
  exact ⟨hb, by rw [hb]; rfl⟩

/-- Witness for C5 at the scenario parameter set with an emptied profile. -/
theorem build_empty_profile_index_error_witness :
    build emptyParams = Except.error PyError.indexError ∧
    failsWithConfigurationError (build emptyParams) = false :=
  build_empty_profile_index_error emptyParams rfl

/-- C7: for every parameter set whose profile is non-empty, the build emits
exactly stations.length left-hole circles and exactly stations.length
right-hole circles: left and right hole counts agree with the station count. -/
theorem build_hole_counts (P : Params) (hne : P.right_edge_profile ≠ []) :
    (build P).map (fun es => es.countP (isHoleOn "HOLES_L")) = Except.ok P.stations.length ∧
    (build P).map (fun es => es.countP (isHoleOn "HOLES_R")) = Except.ok P.stations.length := by
  obtain ⟨p, rest, hprof⟩ : ∃ p rest, P.right_edge_profile = p :: rest := by
    cases h : P.right_edge_profile with
    | nil => exact absurd h hne
    | cons p rest => exact ⟨p, rest, rfl⟩
  constructor
  · simp only [build, hprof, Except.map]
    congr 1
    simp only [List.countP_append, countP_L_leftHoles, countP_L_rightHoles,
      countP_holes_dashed, countP_holes_ticks]
    simp [List.countP_cons, isHoleOn]
  · simp only [build, hprof, Except.map]
    congr 1
    simp only [List.countP_append, countP_R_leftHoles, countP_R_rightHoles,
      countP_holes_dashed, countP_holes_ticks]
    simp [List.countP_cons, isHoleOn]

/-- Witness for C7 at the end-to-end scenario parameter set: one station,
one left hole, one right hole. -/
theorem build_hole_counts_witness :
    (build scenarioParams).map (fun es => es.countP (isHoleOn "HOLES_L")) = Except.ok 1 ∧
    (build scenarioParams).map (fun es => es.countP (isHoleOn "HOLES_R")) = Except.ok 1 := by
  have h := build_hole_counts scenarioParams (by simp [scenarioParams])
  exact ⟨h.1, h.2⟩

/-- C8: with a non-empty profile, the third emitted outline segment — the
top edge — ends at the profile's first point (x = its distance-from-left,
y = its distance-from-top), and the provisional top-right span has no effect
on the output: changing top_right_flange leaves the build unchanged. -/
theorem top_right_tied_to_profile (P : Params) (p : Pt) (rest : List Pt)
    (hprof : P.right_edge_profile = p :: rest) :
    (build P).map (fun es => es[2]?) =
      Except.ok (some (Entity.line (P.left_x + P.top_left_flange, 0) (p.2, p.1) "OUTLINE")) ∧
    ∀ t, build { P with top_right_flange := t } = build P := by
  constructor
  · simp [build, hprof, Except.map]
  · intro t
    simp only [build, hprof]
    rfl

/-- Witness for C8 at the end-to-end scenario parameter set. -/
theorem top_right_tied_to_profile_witness :
    (build scenarioParams).map (fun es => es[2]?) =
      Except.ok (some (Entity.line
        (scenarioParams.left_x + scenarioParams.top_left_flange, 0)
        ((350 : ℚ), (0 : ℚ)) "OUTLINE")) ∧
    build { scenarioParams with top_right_flange := 999 } = build scenarioParams := by
  have h := top_right_tied_to_profile scenarioParams ((0 : ℚ), (350 : ℚ))
    [((1000 : ℚ), (400 : ℚ))] rfl
  exact ⟨h.1, h.2 999⟩

/-- C9: the build is a pure function of the parameter set — identical
parameter sets give identical emitted entities. -/
theorem build_deterministic (P Q : Params) (h : P = Q) : build P = build Q := by
  rw [h]

/-- Witness for C9 at the end-to-end scenario parameter set. -/
theorem build_deterministic_witness : build scenarioParams = build scenarioParams :=
  build_deterministic scenarioParams scenarioParams rfl

end Cad
